import Mathlib

/-!
Verification development for the session-lock plugin
(`src/plugin/utils/tts.ts`): a SQLite-backed lock coordinator with a FIFO
wait queue and advisory lock files, plus two classifiers (git side-effect
detection for shell commands, and a patch path extractor).

The TypeScript is embedded shallowly: SQL statements become operations on an
explicit `DbState`, the acquire polling loop becomes a step function driven
by a per-iteration environment (clock, file mtimes, advisory-lock outcomes,
and interference by other processes), and effects (notifications, unlock
calls, sleeps) are recorded in an explicit trace.
-/

namespace SessionLockSpec

/-! ## Git side-effect classifier (tts.ts lines 694-776) -/

/-- Kernel-reducible model of JavaScript `String.prototype.startsWith`. -/
def strStartsWith (s p : String) : Bool := p.data.isPrefixOf s.data

/-- The fixed read-only subcommand set `readOnlyGit` (tts.ts 694-709). -/
def readOnlyGit : List String :=
  ["help", "version", "status", "diff", "show", "log", "reflog", "rev-parse",
   "cat-file", "ls-files", "ls-tree", "grep", "blame", "describe"]

/-- Two-token global options skipped together with their argument
(tts.ts 721). -/
def twoTokenGitFlag (a : String) : Bool :=
  a = "-c" || a = "-C" || a = "--git-dir" || a = "--work-tree" || a = "--namespace"

/-- The `--opt=value` forms of the global options (tts.ts 725). -/
def eqFormGitFlag (a : String) : Bool :=
  strStartsWith a "--git-dir=" || strStartsWith a "--work-tree=" || strStartsWith a "--namespace="

/-- Pager flags skipped as single tokens (tts.ts 729). -/
def pagerGitFlag (a : String) : Bool :=
  a = "--no-pager" || a = "-p" || a = "--paginate"

/-- The option-skipping loop of `isGitSideEffect` (tts.ts 716-741): starting
from the tokens after `git`, skip flags until the first non-flag token, the
subcommand.  `some ""` models the `if (!a) break` exit on an empty token
(the loop stops and `sub` is that empty string); `none` models running past
the end of the argument vector (`sub` is `undefined`). -/
def gitSubcommand : List String → Option String
  | [] => none
  | a :: rest =>
    if a = "" then some ""
    else if twoTokenGitFlag a then
      match rest with
      | [] => none
      | _ :: rest2 => gitSubcommand rest2
    else if eqFormGitFlag a then gitSubcommand rest
    else if pagerGitFlag a then gitSubcommand rest
    else if strStartsWith a "-" then gitSubcommand rest
    else some a

/-- The `if (args[0] === "sudo") args.shift()` step (tts.ts 713). -/
def stripSudo (argv : List String) : List String :=
  match argv with
  | a :: rest => if a = "sudo" then rest else argv
  | [] => argv

/-- `isGitSideEffect` (tts.ts 711-744): a simple command is a mutating git
invocation when its first token (after stripping a leading `sudo`) is `git`
and the subcommand is present, non-empty, and outside `readOnlyGit`. -/
def isGitSideEffect (argv : List String) : Bool :=
  match stripSudo argv with
  | [] => false
  | a0 :: rest =>
    if a0 = "git" then
      match gitSubcommand rest with
      | none => false
      | some sub => if sub = "" then false else !(readOnlyGit.contains sub)
    else false

/-- `gitSideEffects` (tts.ts 746-772): the tree-sitter walk yields one
argument vector per `command` node; the composite command is a side effect
when any constituent simple command is.  The structural parse itself is
external (web-tree-sitter), so the embedding takes the list of argument
vectors it produces. -/
def gitSideEffects (commands : List (List String)) : Bool :=
  commands.any isGitSideEffect

/-- C7: a git invocation (first token `git` after stripping a leading `sudo`)
is not a side effect exactly when its subcommand — the first token remaining
after flag skipping, when one exists and is non-empty — belongs to the fixed
read-only set; a composite command is a side effect iff some constituent git
invocation is; and the spec's concrete examples classify as stated. -/
theorem C7_git_classifier :
    (∀ (argv rest : List String) (sub : String),
        stripSudo argv = "git" :: rest →
        gitSubcommand rest = some sub →
        sub ≠ "" →
        (isGitSideEffect argv = false ↔ sub ∈ readOnlyGit)) ∧
    (∀ commands : List (List String),
        gitSideEffects commands = true ↔ ∃ argv ∈ commands, isGitSideEffect argv = true) ∧
    isGitSideEffect ["git", "status"] = false ∧
    gitSideEffects [["echo", "hi"], ["git", "log"]] = false ∧
    isGitSideEffect ["git", "--no-pager", "diff"] = false ∧
    isGitSideEffect ["git", "commit", "-m", "x"] = true ∧
    isGitSideEffect ["git", "-C", "/tmp", "push"] = true ∧
    isGitSideEffect ["sudo", "git", "reset", "--hard"] = true ∧
    gitSideEffects [["echo", "hi"], ["git", "push"]] = true := by
  refine ⟨?_, ?_, by decide, by decide, by decide, by decide, by decide, by decide, by decide⟩
  · intro argv rest sub h1 h2 h3
    simp only [isGitSideEffect, h1, if_pos rfl, h2, if_neg h3]
    simp
  · intro commands
    simp [gitSideEffects, List.any_eq_true]

/-- Witness for C7 at a concrete input: `git status` has subcommand `status`
and is classified as not a side effect. -/
theorem C7_git_classifier_witness :
    isGitSideEffect ["git", "status"] = false :=
  (C7_git_classifier.1 ["git", "status"] ["status"] "status" (by decide) (by decide)
    (by decide)).mpr (by decide)

/-! ## Regex fallback classifier (tts.ts 774-776, used at 888-897) -/

/-- ASCII fragment of the JavaScript `\s` character class (the commands under
test are shell text, so the ASCII cases are the relevant ones). -/
def jsWhitespace (c : Char) : Bool :=
  c = ' ' || c = '\t' || c = '\n' || c = '\r' || c = Char.ofNat 11 || c = Char.ofNat 12

/-- Whether the text begins with the regex fragment `git(\s|$)`: the literal
`git` followed by whitespace or the end of the string. -/
def gitHere : List Char → Bool
  | 'g' :: 'i' :: 't' :: rest =>
    match rest with
    | [] => true
    | c :: _ => jsWhitespace c
  | _ => false

/-- The separator class `[;&|]` of the fallback regex. -/
def sepChar (c : Char) : Bool := c = ';' || c = '&' || c = '|'

/-- Drop the leading whitespace run (the `\s*` of the regex; since `git`
starts with a non-whitespace character, the greedy skip is exact). -/
def dropWs : List Char → List Char
  | [] => []
  | c :: rest => if jsWhitespace c then dropWs rest else c :: rest

/-- Scan for the `[;&|]\s*git(\s|$)` alternative anywhere in the text. -/
def fallbackScan : List Char → Bool
  | [] => false
  | c :: rest => (sepChar c && gitHere (dropWs rest)) || fallbackScan rest

/-- `fallbackGitSideEffects` (tts.ts 774-776): the regex test
`/(^|[;&|]\s*)git(\s|$)/.test(cmd)` — `git` at the very start of the
command, or after a `;`, `&` or `|` separator with optional whitespace. -/
def fallbackGitSideEffects (cmd : List Char) : Bool :=
  gitHere cmd || fallbackScan cmd

/-- The dispatch in `SessionLockPlugin` (tts.ts 894):
`gitSideEffects(command).catch(() => fallbackGitSideEffects(command))`.
`parsed = some commands` is a successful structural parse yielding the
argument vectors of the simple commands; `parsed = none` is a parse that is
unavailable or failed, which falls back to the regex. -/
def classifyCommand (parsed : Option (List (List String))) (cmd : List Char) : Bool :=
  match parsed with
  | some commands => gitSideEffects commands
  | none => fallbackGitSideEffects cmd

/-- Splitter of a command into whitespace-delimited tokens, used only to
state what it means for a command to contain the token `git`. -/
def wsTokensAux : List Char → List Char → List (List Char)
  | [], acc => if acc.isEmpty then [] else [acc.reverse]
  | c :: rest, acc =>
    if jsWhitespace c then
      if acc.isEmpty then wsTokensAux rest [] else acc.reverse :: wsTokensAux rest []
    else wsTokensAux rest (c :: acc)

/-- The whitespace-delimited tokens of a command. -/
def wsTokens (cmd : List Char) : List (List Char) := wsTokensAux cmd []

/-- Whether the command contains `git` as a whitespace-delimited token. -/
def containsGitToken (cmd : List Char) : Bool :=
  wsTokens cmd |>.contains ['g', 'i', 't']

/-- Characterization of the scan half of the fallback regex. -/
theorem fallbackScan_iff (cmd : List Char) :
    fallbackScan cmd = true ↔
      ∃ pre c rest, cmd = pre ++ c :: rest ∧ sepChar c = true ∧
        gitHere (dropWs rest) = true := by
  induction cmd with
  | nil => simp [fallbackScan]
  | cons d tl ih =>
    simp only [fallbackScan, Bool.or_eq_true, Bool.and_eq_true, ih]
    constructor
    · rintro (⟨hd, hg⟩ | ⟨pre, c, rest, hcmd, hc, hg⟩)
      · exact ⟨[], d, tl, rfl, hd, hg⟩
      · exact ⟨d :: pre, c, rest, by simp [hcmd], hc, hg⟩
    · rintro ⟨pre, c, rest, hcmd, hc, hg⟩
      cases pre with
      | nil =>
        simp only [List.nil_append, List.cons.injEq] at hcmd
        exact Or.inl ⟨hcmd.1 ▸ hc, hcmd.2 ▸ hg⟩
      | cons p ps =>
        simp only [List.cons_append, List.cons.injEq] at hcmd
        exact Or.inr ⟨ps, c, rest, hcmd.2, hc, hg⟩

/-- C8 counterexample: the command `echo git` contains the whitespace token
`git`, yet the fallback classifier (used when structural parsing fails)
classifies it as not a side effect, because the regex only matches `git` in
command position. -/
theorem C8_counterexample :
    containsGitToken "echo git".data = true ∧
    classifyCommand none "echo git".data = false := by
  constructor <;> decide

/-- C8 (amended): when structural parsing is unavailable or fails the
classifier falls back to the regex `(^|[;&|]\s*)git(\s|$)`, which classifies
a command as a side effect exactly when `git` occurs in command position —
at the start of the command, or after one of `;`, `&`, `|` with optional
intervening whitespace, and followed by whitespace or the end — rather than
whenever the token `git` occurs anywhere in the command. -/
theorem C8_fallback_regex :
    (∀ cmd : List Char, classifyCommand none cmd = fallbackGitSideEffects cmd) ∧
    (∀ cmd : List Char,
        fallbackGitSideEffects cmd = true ↔
          (gitHere cmd = true ∨
           ∃ pre c rest, cmd = pre ++ c :: rest ∧ sepChar c = true ∧
             gitHere (dropWs rest) = true)) := by
  refine ⟨fun _ => rfl, fun cmd => ?_⟩
  simp only [fallbackGitSideEffects, Bool.or_eq_true, fallbackScan_iff]

/-! ## Patch path extractor (tts.ts 598-650) -/

/-- Model of JavaScript `String.prototype.trim` (ASCII whitespace cases). -/
def trimChars (l : List Char) : List Char :=
  ((l.dropWhile jsWhitespace).reverse.dropWhile jsWhitespace).reverse

/-- Accumulator form of splitting on newline characters. -/
def splitLinesAux : List Char → List Char → List (List Char)
  | [], acc => [acc.reverse]
  | c :: rest, acc =>
    if c = '\n' then acc.reverse :: splitLinesAux rest [] else splitLinesAux rest (c :: acc)

/-- Model of JavaScript `text.split("\n")` (tts.ts 604). -/
def splitLines (l : List Char) : List (List Char) := splitLinesAux l []

/-- Prefix test on character lists, modelling `line.startsWith(p)`. -/
def isPrefixList (p l : List Char) : Bool := p.isPrefixOf l

/-- Text up to (excluding) the next colon, or the whole text if none. -/
def upToColon : List Char → List Char
  | [] => []
  | c :: rest => if c = ':' then [] else c :: upToColon rest

/-- Model of JavaScript `line.split(":", 2)[1]`: the text strictly between
the first colon and the second colon (or the end), `none` when the line has
no colon at all. -/
def afterFirstColon : List Char → Option (List Char)
  | [] => none
  | c :: rest => if c = ':' then some (upToColon rest) else afterFirstColon rest

/-- The `line.split(":", 2)[1]?.trim()` extraction combined with the
`if (filePath)` guard: `none` when the segment is missing or trims to the
empty string (both falsy in the source). -/
def directivePath (line : List Char) : Option (List Char) :=
  match afterFirstColon line with
  | none => none
  | some t => if (trimChars t).isEmpty then none else some (trimChars t)

/-- The `Hunk` union type of the patch parser (tts.ts 598-601).  `update`
keeps the raw optional `move_path`, which the source leaves possibly empty
(the guard against an empty move path lives in `filesFromPatch`). -/
inductive Hunk where
  | add (path : List Char)
  | delete (path : List Char)
  | update (path : List Char) (move : Option (List Char))
deriving DecidableEq, Repr

/-- The scan loop of `parsePatch` over the lines strictly between the
`*** Begin Patch` and `*** End Patch` markers (tts.ts 616-634).  The move
destination is consulted on the immediately following line only when that
line is still inside the marker range, which is exactly `rest.head?` on the
segment. -/
def scanHunks : List (List Char) → List Hunk
  | [] => []
  | line :: rest =>
    if line.isEmpty then scanHunks rest
    else if isPrefixList "*** Add File:".data line then
      match directivePath line with
      | some p => Hunk.add p :: scanHunks rest
      | none => scanHunks rest
    else if isPrefixList "*** Delete File:".data line then
      match directivePath line with
      | some p => Hunk.delete p :: scanHunks rest
      | none => scanHunks rest
    else if isPrefixList "*** Update File:".data line then
      match directivePath line with
      | some p =>
        Hunk.update p
          (match rest.head? with
           | some nextLine =>
             if isPrefixList "*** Move to:".data nextLine
             then (afterFirstColon nextLine).map trimChars
             else none
           | none => none) :: scanHunks rest
      | none => scanHunks rest
    else scanHunks rest

/-- The `*** Begin Patch` marker. -/
def beginMarker : List Char := "*** Begin Patch".data

/-- The `*** End Patch` marker. -/
def endMarker : List Char := "*** End Patch".data

/-- `parsePatch` (tts.ts 603-637): trim, split into lines, locate the first
begin and end markers by trimmed equality, and scan the enclosed segment;
missing or misordered markers produce no hunks. -/
def parsePatch (patchText : List Char) : List Hunk :=
  let lines := splitLines (trimChars patchText)
  match lines.findIdx? (fun line => trimChars line == beginMarker),
        lines.findIdx? (fun line => trimChars line == endMarker) with
  | some beginIdx, some endIdx =>
    if beginIdx ≥ endIdx then []
    else scanHunks ((lines.drop (beginIdx + 1)).take (endIdx - (beginIdx + 1)))
  | _, _ => []

/-- Insertion into the JavaScript `Set` of files (insertion-ordered, no
duplicates). -/
def setAdd (files : List (List Char)) (p : List Char) : List (List Char) :=
  if p ∈ files then files else files ++ [p]

/-- The body of the `filesFromPatch` loop for a single hunk (tts.ts
642-648): add the resolved path, plus the resolved move destination for an
update hunk whose `move_path` is present and non-empty (truthy). -/
def addHunkFiles (resolve : List Char → List Char) (files : List (List Char)) :
    Hunk → List (List Char)
  | Hunk.add p => setAdd files (resolve p)
  | Hunk.delete p => setAdd files (resolve p)
  | Hunk.update p move =>
    match move with
    | some m => if m.isEmpty then setAdd files (resolve p)
                else setAdd (setAdd files (resolve p)) (resolve m)
    | none => setAdd files (resolve p)

/-- `filesFromPatch` (tts.ts 639-650).  `resolve` abstracts Node's
`path.resolve(dir, ·)` with the base directory already applied; the source
logic under verification is the hunk-to-path-set computation. -/
def filesFromPatch (resolve : List Char → List Char) (patchText : List Char) :
    List (List Char) :=
  (parsePatch patchText).foldl (addHunkFiles resolve) []

/-- The paths a single hunk contributes, before resolution. -/
def hunkPaths : Hunk → List (List Char)
  | Hunk.add p => [p]
  | Hunk.delete p => [p]
  | Hunk.update p move =>
    match move with
    | some m => if m.isEmpty then [p] else [p, m]
    | none => [p]

/-- Concrete resolver used for closed examples: absolute paths stay, others
are joined to the base directory. -/
def slashResolve (dir p : List Char) : List Char :=
  if p.head? = some '/' then p else dir ++ '/' :: p

/-- Membership in `setAdd`. -/
theorem mem_setAdd (files : List (List Char)) (p q : List Char) :
    q ∈ setAdd files p ↔ q ∈ files ∨ q = p := by
  unfold setAdd
  split
  · rename_i hp
    constructor
    · exact Or.inl
    · rintro (h | rfl)
      · exact h
      · exact hp
  · simp

/-- Membership in the per-hunk addition. -/
theorem mem_addHunkFiles (resolve : List Char → List Char)
    (files : List (List Char)) (h : Hunk) (q : List Char) :
    q ∈ addHunkFiles resolve files h ↔ q ∈ files ∨ q ∈ (hunkPaths h).map resolve := by
  cases h with
  | add p => simp [addHunkFiles, hunkPaths, mem_setAdd]
  | delete p => simp [addHunkFiles, hunkPaths, mem_setAdd]
  | update p move =>
    cases move with
    | none => simp [addHunkFiles, hunkPaths, mem_setAdd]
    | some m =>
      by_cases hm : m.isEmpty
      · simp [addHunkFiles, hunkPaths, hm, mem_setAdd]
      · simp [addHunkFiles, hunkPaths, hm, mem_setAdd, or_assoc]

/-- Membership in the fold over hunks. -/
theorem mem_filesFold (resolve : List Char → List Char) (hunks : List Hunk) :
    ∀ (files : List (List Char)) (q : List Char),
      q ∈ hunks.foldl (addHunkFiles resolve) files ↔
        q ∈ files ∨ ∃ h ∈ hunks, q ∈ (hunkPaths h).map resolve := by
  induction hunks with
  | nil => simp
  | cons h tl ih =>
    intro files q
    simp only [List.foldl_cons, ih, mem_addHunkFiles, List.mem_cons]
    constructor
    · rintro ((hf | hp) | ⟨h', hh', hq⟩)
      · exact Or.inl hf
      · exact Or.inr ⟨h, Or.inl rfl, hp⟩
      · exact Or.inr ⟨h', Or.inr hh', hq⟩
    · rintro (hf | ⟨h', hh' | hh', hq⟩)
      · exact Or.inl (Or.inl hf)
      · exact Or.inl (Or.inr (hh' ▸ hq))
      · exact Or.inr ⟨h', hh', hq⟩

/-- C9: the extracted files are exactly the resolved paths named by the
add/delete/update directives between the patch markers (with the move
destination counted for an update directive immediately followed by a
`*** Move to:` line); missing markers yield the empty set rather than an
error; and the spec's concrete examples extract exactly the stated sets. -/
theorem C9_patch_paths :
    (∀ (resolve : List Char → List Char) (patchText q : List Char),
        q ∈ filesFromPatch resolve patchText ↔
          ∃ h ∈ parsePatch patchText, q ∈ (hunkPaths h).map resolve) ∧
    (∀ (resolve : List Char → List Char) (patchText : List Char),
        ((splitLines (trimChars patchText)).findIdx?
            (fun line => trimChars line == beginMarker) = none ∨
         (splitLines (trimChars patchText)).findIdx?
            (fun line => trimChars line == endMarker) = none) →
        filesFromPatch resolve patchText = []) ∧
    filesFromPatch (slashResolve "/d".data)
        ("*** Begin Patch\n*** Add File: a.ts\n*** Update File: b.ts\n*** Move to: c.ts\n*** End Patch").data =
      ["/d/a.ts".data, "/d/b.ts".data, "/d/c.ts".data] ∧
    filesFromPatch (slashResolve "/d".data) ("*** Begin Patch\n*** End Patch").data = [] := by
  refine ⟨?_, ?_, by decide, by decide⟩
  · intro resolve patchText q
    simpa using mem_filesFold resolve (parsePatch patchText) [] q
  · intro resolve patchText hmiss
    unfold filesFromPatch parsePatch
    rcases hmiss with hb | he
    · simp [hb]
    · simp [he]

/-- Witness for C9 at a concrete input: a text with no markers at all
extracts the empty set. -/
theorem C9_patch_paths_witness :
    filesFromPatch (slashResolve "/d".data) "no markers here".data = [] :=
  C9_patch_paths.2.1 (slashResolve "/d".data) "no markers here".data (Or.inl (by decide))

/-! ## Lock coordinator data model (tts.ts 162-247, 551-592)

The SQLite database becomes an explicit `DbState`; the SQL statements of
`SessionLock` become pure operations on it.  Times are integers
(milliseconds, `Date.now()`), supplied by the per-iteration environment. -/

/-- The `kind` column: `"file" | "repo"`. -/
inductive Kind where
  | file
  | repo
deriving DecidableEq, Repr

/-- A row of the `lock` table (tts.ts 183-190, schema at 558-560): `key` is
the primary key. -/
structure Row where
  key : String
  session : String
  kind : Kind
  target : String
  lockfile : String
  created : Int
deriving DecidableEq, Repr

/-- A row of the `wait_queue` table (tts.ts 192-199, schema at 572-574):
`ticket` is the autoincrement primary key. -/
structure QueueRow where
  ticket : Nat
  key : String
  session : String
  kind : Kind
  target : String
  created : Int
deriving DecidableEq, Repr

/-- The database state: both tables plus the autoincrement counter backing
`wait_queue.ticket`. -/
structure DbState where
  lock : List Row
  queue : List QueueRow
  nextTicket : Nat
deriving DecidableEq, Repr

/-- `select ... from lock where key = ?` (tts.ts 358-360). -/
def readLock (db : DbState) (key : String) : Option Row :=
  db.lock.find? (fun r => r.key == key)

/-- The SQLite error classes distinguished by the acquire loop's regex
`/SQLITE_(BUSY|LOCKED|CONSTRAINT)/i` (tts.ts 448): `constraint` is the
primary-key violation, `busy` covers BUSY/LOCKED/database-is-locked, and
`other` is any non-retryable failure. -/
inductive InsertErr where
  | constraint
  | busy
  | other
deriving DecidableEq, Repr

/-- Whether the error message matches the retry regex (tts.ts 448). -/
def sqliteRetryable : InsertErr → Bool
  | InsertErr.constraint => true
  | InsertErr.busy => true
  | InsertErr.other => false

/-- `insert into lock ... values (...)` (tts.ts 440-444): fails with a
uniqueness violation when the key is already present; `fault` injects a
transient store error for a key that is free. -/
def insertLock (db : DbState) (row : Row) (fault : Option InsertErr) :
    Except InsertErr DbState :=
  if db.lock.any (fun r => r.key == row.key) then Except.error InsertErr.constraint
  else
    match fault with
    | some e => Except.error e
    | none => Except.ok { db with lock := db.lock ++ [row] }

/-- `delete from lock where key = ?` (tts.ts 383). -/
def deleteLockKey (db : DbState) (key : String) : DbState :=
  { db with lock := db.lock.filter (fun r => !(r.key == key)) }

/-- `delete from lock where session = ?` (tts.ts 267). -/
def deleteLockBySession (db : DbState) (session : String) : DbState :=
  { db with lock := db.lock.filter (fun r => !(r.session == session)) }

/-- `insert into wait_queue ...` (tts.ts 475-479): returns the assigned
ticket (`lastInsertRowid`) and the updated state. -/
def insertQueue (db : DbState) (key session : String) (kind : Kind) (target : String)
    (created : Int) : Nat × DbState :=
  (db.nextTicket,
   { db with
      queue := db.queue ++
        [{ ticket := db.nextTicket, key := key, session := session, kind := kind,
           target := target, created := created }],
      nextTicket := db.nextTicket + 1 })

/-- `delete from wait_queue where ticket = ?` (tts.ts 491). -/
def deleteTicket (db : DbState) (ticket : Nat) : DbState :=
  { db with queue := db.queue.filter (fun q => !(q.ticket == ticket)) }

/-- `delete from wait_queue where session = ?` (tts.ts 268). -/
def deleteQueueBySession (db : DbState) (session : String) : DbState :=
  { db with queue := db.queue.filter (fun q => !(q.session == session)) }

/-- The result of `#queueState` (tts.ts 494-518). -/
structure QueueInfo where
  position : Nat
  length : Nat
  headSession : Option String
deriving DecidableEq, Repr

/-- The row with the minimal ticket (`order by ticket asc limit 1`). -/
def minTicketRow : List QueueRow → Option QueueRow
  | [] => none
  | q :: rest =>
    match minTicketRow rest with
    | none => some q
    | some m => if q.ticket ≤ m.ticket then some q else some m

/-- `#queueState` (tts.ts 494-518): the head session for the key, this
ticket's 1-based rank (`count(*) where key = ? and ticket <= ?`), and the
total number of waiters for the key. -/
def queueState (db : DbState) (key : String) (ticket : Nat) : QueueInfo :=
  { position := db.queue.countP (fun q => q.key == key && decide (q.ticket ≤ ticket))
    length := (db.queue.filter (fun q => q.key == key)).length
    headSession := (minTicketRow (db.queue.filter (fun q => q.key == key))).map (·.session) }

/-- `isStale` (tts.ts 588-592): a failed `fs.stat` (`mtime = none`) is
stale; otherwise the modification time must be older than the staleness
threshold. -/
def isStale (mtime : Option Int) (staleMs now : Int) : Bool :=
  match mtime with
  | none => true
  | some m => decide (now - m > staleMs)

/-! ## Lock coordinator acquire loop (tts.ts 228-549) -/

/-- The notification phases (tts.ts 168). -/
inductive Phase where
  | queued
  | waiting
  | acquired
  | released
  | stale_reaped
  | timeout
deriving DecidableEq, Repr

/-- The `LockStatus` payload (tts.ts 170-181). -/
structure Status where
  phase : Phase
  sessionID : String
  kind : Kind
  key : String
  target : String
  queuePosition : Option Nat := none
  queueLength : Option Nat := none
  ownerSession : Option String := none
  waitMs : Option Int := none
  releasedCount : Option Nat := none
deriving DecidableEq, Repr

/-- Observable effects of the coordinator: a notification, a best-effort
`lockfile.unlock(target, {lockfilePath})`, a call to a `Release` handle
obtained from `lockfile.lock` for a key, or a `Bun.sleep`. -/
inductive Effect where
  | emit (s : Status)
  | unlockPath (target lockfile : String)
  | releaseHandle (key : String)
  | sleep (ms : Int)
deriving DecidableEq, Repr

/-- The configuration fields of `SessionLock` (tts.ts 229-243). -/
structure Cfg where
  staleMs : Int
  pollMs : Int
  maxWaitMs : Int
deriving DecidableEq, Repr

/-- Lookup in the process-local `#held` map (key to holding session). -/
def heldLookup (held : List (String × String)) (key : String) : Option String :=
  (held.find? (fun kv => kv.1 == key)).map (·.2)

/-- `Map.set` on the `#held` map. -/
def heldInsert (held : List (String × String)) (key session : String) :
    List (String × String) :=
  if held.any (fun kv => kv.1 == key) then
    held.map (fun kv => if kv.1 == key then (key, session) else kv)
  else held ++ [(key, session)]

/-- `Map.delete` on the `#held` map. -/
def heldErase (held : List (String × String)) (key : String) :
    List (String × String) :=
  held.filter (fun kv => !(kv.1 == key))

/-- Process state: the shared database plus the process-local handle cache
`#held` (modelled as key to session; the release closures become
`Effect.releaseHandle` events when called). -/
structure ProcState where
  db : DbState
  held : List (String × String)
deriving DecidableEq, Repr

/-- The inputs of one `#acquire` call (tts.ts 298-300): derived key, caller
session, kind, target and the hashed advisory lock file path. -/
structure AcquireInput where
  key : String
  sessionID : String
  kind : Kind
  target : String
  lockfilePath : String
deriving DecidableEq, Repr

/-- The loop-local debounce variables (tts.ts 317-318). -/
structure LoopSt where
  lastWaitUpdate : Int
  lastRowOwner : String
deriving DecidableEq, Repr

/-- The environment of one iteration of the polling loop: the clock, the
file mtimes visible to `fs.stat`, whether `lockfile.lock` succeeds, an
injected store fault, and the writes other processes perform against the
shared database (`pre` since our previous look; `mid` between winning the
advisory file lock and running the insert — the uniqueness race window). -/
structure IterEnv where
  now : Int
  mtimeOf : String → Option Int
  lockOk : Bool
  insertFault : Option InsertErr
  pre : DbState → DbState
  mid : DbState → DbState

/-- Outcome of one loop iteration. -/
inductive StepOut where
  | retry
  | acquiredOk
  | timedOut
  | raiseLock
  | raiseDb
deriving DecidableEq, Repr

/-- The `acquired` status emitted on the successful exits of the loop
(tts.ts 367-376 and 456-465). -/
def acquiredStatus (inp : AcquireInput) (queue : QueueInfo) (waitMs : Int) : Status :=
  { phase := Phase.acquired, sessionID := inp.sessionID, kind := inp.kind, key := inp.key,
    target := inp.target, queuePosition := some queue.position,
    queueLength := some queue.length, waitMs := some waitMs }

/-- The branch of the loop body for a present lock row (tts.ts 358-416):
already owned by this session (re-lock and cache unless already cached, emit
`acquired`); owned by another session and stale (delete the record,
best-effort unlock, emit `stale_reaped`, retry with no sleep); otherwise
debounced `waiting` with the owner's session, then sleep. -/
def rowStep (cfg : Cfg) (inp : AcquireInput) (env : IterEnv) (ls : LoopSt) (st : ProcState)
    (queue : QueueInfo) (waitMs : Int) (row : Row) :
    StepOut × ProcState × LoopSt × List Effect :=
  if row.session = inp.sessionID then
    if (heldLookup st.held inp.key).isNone then
      if env.lockOk then
        (StepOut.acquiredOk,
         { st with held := heldInsert st.held inp.key inp.sessionID }, ls,
         [Effect.emit (acquiredStatus inp queue waitMs)])
      else (StepOut.raiseLock, st, ls, [])
    else (StepOut.acquiredOk, st, ls, [Effect.emit (acquiredStatus inp queue waitMs)])
  else if isStale (env.mtimeOf row.lockfile) cfg.staleMs env.now then
    (StepOut.retry, { st with db := deleteLockKey st.db inp.key }, ls,
     [Effect.unlockPath row.target row.lockfile,
      Effect.emit { phase := Phase.stale_reaped, sessionID := inp.sessionID,
                    kind := inp.kind, key := inp.key, target := inp.target,
                    ownerSession := some row.session, waitMs := some waitMs }])
  else
    if env.now - ls.lastWaitUpdate ≥ 1500 ∨ ls.lastRowOwner ≠ row.session then
      (StepOut.retry, st, { lastWaitUpdate := env.now, lastRowOwner := row.session },
       [Effect.emit { phase := Phase.waiting, sessionID := inp.sessionID,
                      kind := inp.kind, key := inp.key, target := inp.target,
                      queuePosition := some queue.position,
                      queueLength := some queue.length,
                      ownerSession := some row.session, waitMs := some waitMs },
        Effect.sleep cfg.pollMs])
    else (StepOut.retry, st, ls, [Effect.sleep cfg.pollMs])

/-- The branch of the loop body for an absent lock row (tts.ts 418-466):
attempt the non-blocking advisory lock; on failure emit a debounced
`waiting` and sleep; on success run the insert against the database as other
processes may have left it (`env.mid`), and on a retryable insert failure
release the just-obtained handle and sleep-retry, on another failure release
and rethrow, on success cache the handle and emit `acquired`. -/
def noRowStep (cfg : Cfg) (inp : AcquireInput) (env : IterEnv) (ls : LoopSt) (st : ProcState)
    (queue : QueueInfo) (waitMs : Int) :
    StepOut × ProcState × LoopSt × List Effect :=
  if env.lockOk then
    match insertLock (env.mid st.db)
        { key := inp.key, session := inp.sessionID, kind := inp.kind,
          target := inp.target, lockfile := inp.lockfilePath, created := env.now }
        env.insertFault with
    | Except.error e =>
      if sqliteRetryable e then
        (StepOut.retry, { st with db := env.mid st.db }, ls,
         [Effect.releaseHandle inp.key, Effect.sleep cfg.pollMs])
      else
        (StepOut.raiseDb, { st with db := env.mid st.db }, ls, [Effect.releaseHandle inp.key])
    | Except.ok db2 =>
      (StepOut.acquiredOk,
       { db := db2, held := heldInsert st.held inp.key inp.sessionID }, ls,
       [Effect.emit (acquiredStatus inp queue waitMs)])
  else
    if env.now - ls.lastWaitUpdate ≥ 1500 then
      (StepOut.retry, st, { ls with lastWaitUpdate := env.now },
       [Effect.emit { phase := Phase.waiting, sessionID := inp.sessionID,
                      kind := inp.kind, key := inp.key, target := inp.target,
                      queuePosition := some queue.position,
                      queueLength := some queue.length, waitMs := some waitMs },
        Effect.sleep cfg.pollMs])
    else (StepOut.retry, st, ls, [Effect.sleep cfg.pollMs])

/-- The head-of-queue portion of the loop body (tts.ts 358-466): dispatch on
the current lock row. -/
def headStep (cfg : Cfg) (inp : AcquireInput) (env : IterEnv) (ls : LoopSt) (st : ProcState)
    (queue : QueueInfo) (waitMs : Int) :
    StepOut × ProcState × LoopSt × List Effect :=
  match readLock st.db inp.key with
  | some row => rowStep cfg inp env ls st queue waitMs row
  | none => noRowStep cfg inp env ls st queue waitMs

/-- One iteration of the `while (true)` polling loop of `#acquire`
(tts.ts 321-467): the timeout check, then the queue-rank gate with its
debounced `waiting`, then the head-of-queue work.  Returns the outcome, the
process state after the iteration, the updated debounce variables, and the
effects in program order. -/
def acquireStep (cfg : Cfg) (inp : AcquireInput) (started : Int) (ticket : Nat)
    (env : IterEnv) (ls : LoopSt) (st : ProcState) :
    StepOut × ProcState × LoopSt × List Effect :=
  let waitMs := env.now - started
  if waitMs > cfg.maxWaitMs then
    (StepOut.timedOut, st, ls,
     [Effect.emit { phase := Phase.timeout, sessionID := inp.sessionID, kind := inp.kind,
                    key := inp.key, target := inp.target, waitMs := some waitMs }])
  else
    let queue := queueState st.db inp.key ticket
    if queue.position > 1 then
      if env.now - ls.lastWaitUpdate ≥ 1500 then
        (StepOut.retry, st, { ls with lastWaitUpdate := env.now },
         [Effect.emit { phase := Phase.waiting, sessionID := inp.sessionID, kind := inp.kind,
                        key := inp.key, target := inp.target,
                        queuePosition := some queue.position,
                        queueLength := some queue.length,
                        ownerSession := queue.headSession, waitMs := some waitMs },
          Effect.sleep cfg.pollMs])
      else (StepOut.retry, st, ls, [Effect.sleep cfg.pollMs])
    else headStep cfg inp env ls st queue waitMs

/-- Overall outcome of running the polling loop under a finite schedule of
iteration environments. -/
inductive RunOut where
  | acquired
  | timedOut
  | raisedLock
  | raisedDb
  | outOfFuel
deriving DecidableEq, Repr

/-- The polling loop (tts.ts 321-467) driven by a schedule of iteration
environments; each iteration first absorbs the interleaved writes of other
processes (`env.pre`), then runs one iteration.  The schedule running out
(`outOfFuel`) has no source counterpart — the real loop would keep
polling. -/
def runLoop (cfg : Cfg) (inp : AcquireInput) (started : Int) (ticket : Nat) :
    List IterEnv → LoopSt → ProcState → RunOut × ProcState × List Effect
  | [], _, st => (RunOut.outOfFuel, st, [])
  | env :: envs, ls, st =>
    let st0 := { st with db := env.pre st.db }
    match acquireStep cfg inp started ticket env ls st0 with
    | (StepOut.retry, st1, ls1, effs) =>
      let rest := runLoop cfg inp started ticket envs ls1 st1
      (rest.1, rest.2.1, effs ++ rest.2.2)
    | (StepOut.acquiredOk, st1, _, effs) => (RunOut.acquired, st1, effs)
    | (StepOut.timedOut, st1, _, effs) => (RunOut.timedOut, st1, effs)
    | (StepOut.raiseLock, st1, _, effs) => (RunOut.raisedLock, st1, effs)
    | (StepOut.raiseDb, st1, _, effs) => (RunOut.raisedDb, st1, effs)

/-- The caller-visible result of `#acquire`: success, the `LockTimeout`
failure, a propagated exception, or the schedule running out. -/
inductive AcqResult where
  | ok
  | lockTimeout
  | errLock
  | errDb
  | pending
deriving DecidableEq, Repr

/-- `#acquire` (tts.ts 298-471): the idempotent fast path when this process
already holds the key for this session; otherwise enqueue a `QueueEntry`,
emit `queued` (with constant position 1/1 and wait 0, tts.ts 306-315), run
the polling loop, and — in the `finally` — delete the queue entry by ticket
whatever the outcome. -/
def acquire (cfg : Cfg) (inp : AcquireInput) (started : Int) (envs : List IterEnv)
    (st : ProcState) : AcqResult × ProcState × List Effect :=
  if heldLookup st.held inp.key = some inp.sessionID then (AcqResult.ok, st, [])
  else
    let enq := insertQueue st.db inp.key inp.sessionID inp.kind inp.target started
    let run := runLoop cfg inp started enq.1 envs
      { lastWaitUpdate := 0, lastRowOwner := "" } { st with db := enq.2 }
    let final : ProcState := { run.2.1 with db := deleteTicket run.2.1.db enq.1 }
    ((match run.1 with
      | RunOut.acquired => AcqResult.ok
      | RunOut.timedOut => AcqResult.lockTimeout
      | RunOut.raisedLock => AcqResult.errLock
      | RunOut.raisedDb => AcqResult.errDb
      | RunOut.outOfFuel => AcqResult.pending),
     final,
     Effect.emit { phase := Phase.queued, sessionID := inp.sessionID, kind := inp.kind,
                   key := inp.key, target := inp.target, queuePosition := some 1,
                   queueLength := some 1, waitMs := some 0 } :: run.2.2)

/-- The per-row branch of `releaseSession` (tts.ts 272-280): release the
process-local handle when this process holds the key for the session,
otherwise best-effort unlock the recorded lock-file path. -/
def releaseRowEffect (held : List (String × String)) (sessionID : String) (row : Row) :
    List (String × String) × Effect :=
  match heldLookup held row.key with
  | some s =>
    if s = sessionID then (heldErase held row.key, Effect.releaseHandle row.key)
    else (held, Effect.unlockPath row.target row.lockfile)
  | none => (held, Effect.unlockPath row.target row.lockfile)

/-- The traversal of `releaseSession` over the session's lock rows
(tts.ts 271-281), threading the `#held` map and collecting the release
effects in row order. -/
def releaseFold (sessionID : String) : List Row →
    List (String × String) × List Effect → List (String × String) × List Effect
  | [], acc => acc
  | row :: rest, acc =>
    releaseFold sessionID rest
      ((releaseRowEffect acc.1 sessionID row).1,
       acc.2 ++ [(releaseRowEffect acc.1 sessionID row).2])

/-- `releaseSession` (tts.ts 261-296): read the session's lock rows, delete
all of its lock and queue rows, run the per-row release effects, and emit a
single `released` status carrying the count when any row existed. -/
def releaseSession (st : ProcState) (sessionID : String) : ProcState × List Effect :=
  let rows := st.db.lock.filter (fun r => r.session == sessionID)
  let db1 := deleteQueueBySession (deleteLockBySession st.db sessionID) sessionID
  let fold := releaseFold sessionID rows (st.held, [])
  match rows with
  | [] => ({ db := db1, held := fold.1 }, fold.2)
  | first :: _ =>
    ({ db := db1, held := fold.1 },
     fold.2 ++
       [Effect.emit { phase := Phase.released, sessionID := sessionID, kind := first.kind,
                      key := first.key, target := first.target,
                      releasedCount := some rows.length }])

/-! ## Branch equations and trace-shape lemmas for the acquire loop -/

theorem acquireStep_timeout_eq (cfg : Cfg) (inp : AcquireInput) (started : Int)
    (ticket : Nat) (env : IterEnv) (ls : LoopSt) (st : ProcState)
    (h : env.now - started > cfg.maxWaitMs) :
    acquireStep cfg inp started ticket env ls st =
      (StepOut.timedOut, st, ls,
       [Effect.emit { phase := Phase.timeout, sessionID := inp.sessionID, kind := inp.kind,
                      key := inp.key, target := inp.target,
                      waitMs := some (env.now - started) }]) := by
  simp only [acquireStep, if_pos h]

theorem acquireStep_posGt_eq (cfg : Cfg) (inp : AcquireInput) (started : Int)
    (ticket : Nat) (env : IterEnv) (ls : LoopSt) (st : ProcState)
    (h1 : ¬ env.now - started > cfg.maxWaitMs)
    (h2 : (queueState st.db inp.key ticket).position > 1) :
    acquireStep cfg inp started ticket env ls st =
      (if env.now - ls.lastWaitUpdate ≥ 1500 then
        (StepOut.retry, st, { ls with lastWaitUpdate := env.now },
         [Effect.emit { phase := Phase.waiting, sessionID := inp.sessionID, kind := inp.kind,
                        key := inp.key, target := inp.target,
                        queuePosition := some (queueState st.db inp.key ticket).position,
                        queueLength := some (queueState st.db inp.key ticket).length,
                        ownerSession := (queueState st.db inp.key ticket).headSession,
                        waitMs := some (env.now - started) },
          Effect.sleep cfg.pollMs])
      else (StepOut.retry, st, ls, [Effect.sleep cfg.pollMs])) := by
  simp only [acquireStep, if_neg h1, if_pos h2]

theorem acquireStep_head_eq (cfg : Cfg) (inp : AcquireInput) (started : Int)
    (ticket : Nat) (env : IterEnv) (ls : LoopSt) (st : ProcState)
    (h1 : ¬ env.now - started > cfg.maxWaitMs)
    (h2 : ¬ (queueState st.db inp.key ticket).position > 1) :
    acquireStep cfg inp started ticket env ls st =
      headStep cfg inp env ls st (queueState st.db inp.key ticket) (env.now - started) := by
  simp only [acquireStep, if_neg h1, if_neg h2]

/-- Shape invariant of one loop iteration's effect list: an `acquired`
notification is emitted exactly on the successful terminal outcome, and then
it is the only effect of that iteration. -/
def StepTraceOk : StepOut × ProcState × LoopSt × List Effect → Prop
  | (out, _, _, effs) =>
    (out = StepOut.acquiredOk → ∃ s, effs = [Effect.emit s] ∧ s.phase = Phase.acquired) ∧
    (out ≠ StepOut.acquiredOk → ∀ s, Effect.emit s ∈ effs → s.phase ≠ Phase.acquired)

theorem rowStep_trace_ok (cfg : Cfg) (inp : AcquireInput) (env : IterEnv) (ls : LoopSt)
    (st : ProcState) (queue : QueueInfo) (waitMs : Int) (row : Row) :
    StepTraceOk (rowStep cfg inp env ls st queue waitMs row) := by
  unfold rowStep
  repeat' split
  all_goals refine ⟨fun hout => ?_, fun hout s hs => ?_⟩
  all_goals first
    | exact ⟨_, rfl, rfl⟩
    | exact StepOut.noConfusion hout
    | exact absurd rfl hout
    | (simp only [List.mem_cons, List.mem_singleton, List.not_mem_nil, or_false,
         Effect.emit.injEq] at hs
       try rcases hs with hs | hs
       all_goals first | (subst hs; simp) | simp_all)

theorem noRowStep_trace_ok (cfg : Cfg) (inp : AcquireInput) (env : IterEnv) (ls : LoopSt)
    (st : ProcState) (queue : QueueInfo) (waitMs : Int) :
    StepTraceOk (noRowStep cfg inp env ls st queue waitMs) := by
  unfold noRowStep
  repeat' split
  all_goals refine ⟨fun hout => ?_, fun hout s hs => ?_⟩
  all_goals first
    | exact ⟨_, rfl, rfl⟩
    | exact StepOut.noConfusion hout
    | exact absurd rfl hout
    | (simp only [List.mem_cons, List.mem_singleton, List.not_mem_nil, or_false,
         Effect.emit.injEq] at hs
       try rcases hs with hs | hs
       all_goals first | (subst hs; simp) | simp_all)

theorem headStep_trace_ok (cfg : Cfg) (inp : AcquireInput) (env : IterEnv) (ls : LoopSt)
    (st : ProcState) (queue : QueueInfo) (waitMs : Int) :
    StepTraceOk (headStep cfg inp env ls st queue waitMs) := by
  unfold headStep
  split
  · exact rowStep_trace_ok cfg inp env ls st queue waitMs _
  · exact noRowStep_trace_ok cfg inp env ls st queue waitMs

theorem acquireStep_trace_ok (cfg : Cfg) (inp : AcquireInput) (started : Int)
    (ticket : Nat) (env : IterEnv) (ls : LoopSt) (st : ProcState) :
    StepTraceOk (acquireStep cfg inp started ticket env ls st) := by
  by_cases h1 : env.now - started > cfg.maxWaitMs
  · rw [acquireStep_timeout_eq cfg inp started ticket env ls st h1]
    refine ⟨fun hout => by simp at hout, fun hout s hs => ?_⟩
    simp only [List.mem_singleton] at hs
    simp_all
  · by_cases h2 : (queueState st.db inp.key ticket).position > 1
    · rw [acquireStep_posGt_eq cfg inp started ticket env ls st h1 h2]
      split
      · refine ⟨fun hout => by simp at hout, fun hout s hs => ?_⟩
        simp only [List.mem_cons, List.not_mem_nil, or_false] at hs
        rcases hs with hs | hs <;> simp_all
      · refine ⟨fun hout => by simp at hout, fun hout s hs => ?_⟩
        simp at hs
    · rw [acquireStep_head_eq cfg inp started ticket env ls st h1 h2]
      exact headStep_trace_ok cfg inp env ls st _ _

theorem headStep_row_eq (cfg : Cfg) (inp : AcquireInput) (env : IterEnv) (ls : LoopSt)
    (st : ProcState) (queue : QueueInfo) (waitMs : Int) (row : Row)
    (hrow : readLock st.db inp.key = some row) :
    headStep cfg inp env ls st queue waitMs = rowStep cfg inp env ls st queue waitMs row := by
  simp only [headStep, hrow]

theorem headStep_noRow_eq (cfg : Cfg) (inp : AcquireInput) (env : IterEnv) (ls : LoopSt)
    (st : ProcState) (queue : QueueInfo) (waitMs : Int)
    (hrow : readLock st.db inp.key = none) :
    headStep cfg inp env ls st queue waitMs = noRowStep cfg inp env ls st queue waitMs := by
  simp only [headStep, hrow]

theorem rowStep_stale_eq (cfg : Cfg) (inp : AcquireInput) (env : IterEnv) (ls : LoopSt)
    (st : ProcState) (queue : QueueInfo) (waitMs : Int) (row : Row)
    (h4 : row.session ≠ inp.sessionID)
    (h5 : isStale (env.mtimeOf row.lockfile) cfg.staleMs env.now = true) :
    rowStep cfg inp env ls st queue waitMs row =
      (StepOut.retry, { st with db := deleteLockKey st.db inp.key }, ls,
       [Effect.unlockPath row.target row.lockfile,
        Effect.emit { phase := Phase.stale_reaped, sessionID := inp.sessionID,
                      kind := inp.kind, key := inp.key, target := inp.target,
                      ownerSession := some row.session, waitMs := some waitMs }]) := by
  simp only [rowStep, h5, if_neg h4, if_pos]

theorem insertLock_present (db : DbState) (row : Row) (fault : Option InsertErr)
    (h : ∃ r ∈ db.lock, r.key = row.key) :
    insertLock db row fault = Except.error InsertErr.constraint := by
  have hany : db.lock.any (fun r => r.key == row.key) = true := by
    simpa only [List.any_eq_true, beq_iff_eq] using h
  simp only [insertLock, hany, if_pos]

theorem insertLock_ok_shape (db : DbState) (row : Row) (fault : Option InsertErr)
    (db' : DbState) (h : insertLock db row fault = Except.ok db') :
    (∀ r ∈ db.lock, r.key ≠ row.key) ∧ db' = { db with lock := db.lock ++ [row] } := by
  unfold insertLock at h
  by_cases hany : db.lock.any (fun r => r.key == row.key) = true
  · rw [if_pos hany] at h
    exact absurd h (by simp)
  · rw [if_neg hany] at h
    refine ⟨?_, ?_⟩
    · intro r hr heq
      exact hany (List.any_eq_true.mpr ⟨r, hr, by simp [heq]⟩)
    · cases fault with
      | none => simpa using h.symm
      | some e => exact absurd h (by simp)

theorem noRowStep_conflict_eq (cfg : Cfg) (inp : AcquireInput) (env : IterEnv) (ls : LoopSt)
    (st : ProcState) (queue : QueueInfo) (waitMs : Int)
    (hlock : env.lockOk = true)
    (hpresent : ∃ r ∈ (env.mid st.db).lock, r.key = inp.key) :
    noRowStep cfg inp env ls st queue waitMs =
      (StepOut.retry, { st with db := env.mid st.db }, ls,
       [Effect.releaseHandle inp.key, Effect.sleep cfg.pollMs]) := by
  have hins := insertLock_present (env.mid st.db)
    { key := inp.key, session := inp.sessionID, kind := inp.kind,
      target := inp.target, lockfile := inp.lockfilePath, created := env.now }
    env.insertFault hpresent
  simp only [noRowStep, hlock, if_pos, hins, sqliteRetryable]

/-- Over a full run, the effect trace contains an `acquired` notification
only when the run ends in acquisition, and then it is the final effect. -/
theorem runLoop_acquired_trace (cfg : Cfg) (inp : AcquireInput) (started : Int)
    (ticket : Nat) :
    ∀ (envs : List IterEnv) (ls : LoopSt) (st : ProcState),
      (runLoop cfg inp started ticket envs ls st).1 = RunOut.acquired →
      ∃ pre s, (runLoop cfg inp started ticket envs ls st).2.2 = pre ++ [Effect.emit s] ∧
        s.phase = Phase.acquired ∧
        ∀ s', Effect.emit s' ∈ pre → s'.phase ≠ Phase.acquired := by
  intro envs
  induction envs with
  | nil => intro ls st h; simp [runLoop] at h
  | cons env rest ih =>
    intro ls st h
    rcases hstep : acquireStep cfg inp started ticket env ls { st with db := env.pre st.db }
      with ⟨out, st1, ls1, effs⟩
    have htr := acquireStep_trace_ok cfg inp started ticket env ls { st with db := env.pre st.db }
    rw [hstep] at htr
    cases out with
    | retry =>
      simp only [runLoop, hstep] at h ⊢
      obtain ⟨pre, sAcq, heq, hph, hpre⟩ := ih ls1 st1 h
      refine ⟨effs ++ pre, sAcq, by rw [heq, List.append_assoc], hph, ?_⟩
      intro s' hs'
      rcases List.mem_append.mp hs' with hmem | hmem
      · exact htr.2 (by simp) s' hmem
      · exact hpre s' hmem
    | acquiredOk =>
      simp only [runLoop, hstep]
      obtain ⟨sAcq, heq, hph⟩ := htr.1 rfl
      exact ⟨[], sAcq, by simp [heq], hph, by simp⟩
    | timedOut => simp only [runLoop, hstep] at h; exact RunOut.noConfusion h
    | raiseLock => simp only [runLoop, hstep] at h; exact RunOut.noConfusion h
    | raiseDb => simp only [runLoop, hstep] at h; exact RunOut.noConfusion h

/-- A run that does not end in acquisition emits no `acquired`
notification at all. -/
theorem runLoop_no_acquire_emit (cfg : Cfg) (inp : AcquireInput) (started : Int)
    (ticket : Nat) :
    ∀ (envs : List IterEnv) (ls : LoopSt) (st : ProcState),
      (runLoop cfg inp started ticket envs ls st).1 ≠ RunOut.acquired →
      ∀ s, Effect.emit s ∈ (runLoop cfg inp started ticket envs ls st).2.2 →
        s.phase ≠ Phase.acquired := by
  intro envs
  induction envs with
  | nil => intro ls st _ s hs; simp [runLoop] at hs
  | cons env rest ih =>
    intro ls st h s hs
    rcases hstep : acquireStep cfg inp started ticket env ls { st with db := env.pre st.db }
      with ⟨out, st1, ls1, effs⟩
    have htr := acquireStep_trace_ok cfg inp started ticket env ls { st with db := env.pre st.db }
    rw [hstep] at htr
    cases out with
    | retry =>
      simp only [runLoop, hstep] at h hs
      rcases List.mem_append.mp hs with hmem | hmem
      · exact htr.2 (by simp) s hmem
      · exact ih ls1 st1 h s hmem
    | acquiredOk => simp only [runLoop, hstep] at h; exact absurd rfl h
    | timedOut =>
      simp only [runLoop, hstep] at hs
      exact htr.2 (by simp) s hs
    | raiseLock =>
      simp only [runLoop, hstep] at hs
      exact htr.2 (by simp) s hs
    | raiseDb =>
      simp only [runLoop, hstep] at hs
      exact htr.2 (by simp) s hs

theorem deleteTicket_ticket_ne (db : DbState) (t : Nat) :
    ∀ q ∈ (deleteTicket db t).queue, q.ticket ≠ t := by
  intro q hq
  unfold deleteTicket at hq
  have := (List.mem_filter.mp hq).2
  simpa using this

/-! ## Claim theorems for the coordinator -/

/-- C6: when this process instance already holds the key for this session,
a repeated acquire returns immediately as a no-op: same state (no new queue
entry, no new lock record) and no effects at all. -/
theorem C6_idempotent_acquire :
    ∀ (cfg : Cfg) (inp : AcquireInput) (started : Int) (envs : List IterEnv)
      (st : ProcState),
      heldLookup st.held inp.key = some inp.sessionID →
      acquire cfg inp started envs st = (AcqResult.ok, st, []) := by
  intro cfg inp started envs st h
  simp only [acquire, if_pos h]

/-- Witness for C6: a process holding `file:/repo/a.ts` for `S1` re-acquires
it as a pure no-op. -/
theorem C6_idempotent_acquire_witness :
    acquire ⟨120000, 250, 600000⟩ ⟨"file:/repo/a.ts", "S1", Kind.file, "/repo/a.ts", "/lf"⟩ 0 []
        ⟨⟨[], [], 1⟩, [("file:/repo/a.ts", "S1")]⟩ =
      (AcqResult.ok, ⟨⟨[], [], 1⟩, [("file:/repo/a.ts", "S1")]⟩, []) :=
  C6_idempotent_acquire ⟨120000, 250, 600000⟩ ⟨"file:/repo/a.ts", "S1", Kind.file, "/repo/a.ts", "/lf"⟩
    0 [] ⟨⟨[], [], 1⟩, [("file:/repo/a.ts", "S1")]⟩ (by decide)

/-- C10 (implicit): a failed stat on the recorded advisory lock file makes
`isStale` return true, so a head-of-queue waiter whose key is held by a
different session reaps that record immediately — delete of the LockRecord,
best-effort unlock, `stale_reaped`, no sleep — regardless of how recent the
record is. -/
theorem C10_missing_lockfile_is_stale :
    (∀ staleMs now : Int, isStale none staleMs now = true) ∧
    (∀ (cfg : Cfg) (inp : AcquireInput) (started : Int) (ticket : Nat) (env : IterEnv)
        (ls : LoopSt) (st : ProcState) (row : Row),
        ¬ env.now - started > cfg.maxWaitMs →
        ¬ (queueState st.db inp.key ticket).position > 1 →
        readLock st.db inp.key = some row →
        row.session ≠ inp.sessionID →
        env.mtimeOf row.lockfile = none →
        acquireStep cfg inp started ticket env ls st =
          (StepOut.retry, { st with db := deleteLockKey st.db inp.key }, ls,
           [Effect.unlockPath row.target row.lockfile,
            Effect.emit { phase := Phase.stale_reaped, sessionID := inp.sessionID,
                          kind := inp.kind, key := inp.key, target := inp.target,
                          ownerSession := some row.session,
                          waitMs := some (env.now - started) }])) := by
  refine ⟨fun staleMs now => rfl, ?_⟩
  intro cfg inp started ticket env ls st row h1 h2 h3 h4 h5
  rw [acquireStep_head_eq cfg inp started ticket env ls st h1 h2,
    headStep_row_eq cfg inp env ls st _ _ row h3,
    rowStep_stale_eq cfg inp env ls st _ _ row h4 (by rw [h5]; rfl)]

/-- Concrete database for the reap witnesses: `S1` recorded as holder, `S2`
the sole waiter at the head of the queue. -/
def reapDemoDb : DbState :=
  ⟨[⟨"file:/repo/a.ts", "S1", Kind.file, "/repo/a.ts", "/locks/h.lock", 0⟩],
   [⟨1, "file:/repo/a.ts", "S2", Kind.file, "/repo/a.ts", 0⟩], 2⟩

/-- The acquire input of the reap witnesses: `S2` requesting the key. -/
def reapDemoInp : AcquireInput :=
  ⟨"file:/repo/a.ts", "S2", Kind.file, "/repo/a.ts", "/locks/h.lock"⟩

/-- Witness for C10: the lock file does not stat, so the head waiter reaps
immediately even though the record was created at the current instant. -/
theorem C10_missing_lockfile_is_stale_witness :
    acquireStep ⟨120000, 250, 600000⟩ reapDemoInp 0 1
        ⟨0, fun _ => none, true, none, id, id⟩ ⟨0, ""⟩ ⟨reapDemoDb, []⟩ =
      (StepOut.retry, { db := deleteLockKey reapDemoDb "file:/repo/a.ts", held := [] }, ⟨0, ""⟩,
       [Effect.unlockPath "/repo/a.ts" "/locks/h.lock",
        Effect.emit { phase := Phase.stale_reaped, sessionID := "S2", kind := Kind.file,
                      key := "file:/repo/a.ts", target := "/repo/a.ts",
                      ownerSession := some "S1", waitMs := some 0 }]) :=
  C10_missing_lockfile_is_stale.2 ⟨120000, 250, 600000⟩ reapDemoInp 0 1
    ⟨0, fun _ => none, true, none, id, id⟩ ⟨0, ""⟩ ⟨reapDemoDb, []⟩
    ⟨"file:/repo/a.ts", "S1", Kind.file, "/repo/a.ts", "/locks/h.lock", 0⟩
    (by decide) (by decide) (by decide) (by decide) rfl

/-- C3: a head-of-queue waiter that finds the key held by another session
with a stale lock-file mtime deletes the LockRecord, best-effort unlocks the
stale lock file, emits `stale_reaped`, and re-enters the loop with no sleep;
and over a whole run, a waiter that ends up acquiring emits `acquired` as
its final notification, so every `stale_reaped` it emitted comes before it. -/
theorem C3_stale_reclamation :
    (∀ (cfg : Cfg) (inp : AcquireInput) (started : Int) (ticket : Nat) (env : IterEnv)
        (ls : LoopSt) (st : ProcState) (row : Row) (m : Int),
        ¬ env.now - started > cfg.maxWaitMs →
        ¬ (queueState st.db inp.key ticket).position > 1 →
        readLock st.db inp.key = some row →
        row.session ≠ inp.sessionID →
        env.mtimeOf row.lockfile = some m →
        env.now - m > cfg.staleMs →
        acquireStep cfg inp started ticket env ls st =
          (StepOut.retry, { st with db := deleteLockKey st.db inp.key }, ls,
           [Effect.unlockPath row.target row.lockfile,
            Effect.emit { phase := Phase.stale_reaped, sessionID := inp.sessionID,
                          kind := inp.kind, key := inp.key, target := inp.target,
                          ownerSession := some row.session,
                          waitMs := some (env.now - started) }])) ∧
    (∀ (cfg : Cfg) (inp : AcquireInput) (started : Int) (ticket : Nat)
        (envs : List IterEnv) (ls : LoopSt) (st : ProcState),
        (runLoop cfg inp started ticket envs ls st).1 = RunOut.acquired →
        ∃ pre s, (runLoop cfg inp started ticket envs ls st).2.2 = pre ++ [Effect.emit s] ∧
          s.phase = Phase.acquired ∧
          ∀ s', Effect.emit s' ∈ (runLoop cfg inp started ticket envs ls st).2.2 →
            s'.phase = Phase.stale_reaped → Effect.emit s' ∈ pre) := by
  constructor
  · intro cfg inp started ticket env ls st row m h1 h2 h3 h4 h5 h6
    have hstale : isStale (env.mtimeOf row.lockfile) cfg.staleMs env.now = true := by
      rw [h5]
      unfold isStale
      exact decide_eq_true h6
    rw [acquireStep_head_eq cfg inp started ticket env ls st h1 h2,
      headStep_row_eq cfg inp env ls st _ _ row h3,
      rowStep_stale_eq cfg inp env ls st _ _ row h4 hstale]
  · intro cfg inp started ticket envs ls st h
    obtain ⟨pre, s, heq, hph, hpre⟩ := runLoop_acquired_trace cfg inp started ticket envs ls st h
    refine ⟨pre, s, heq, hph, ?_⟩
    intro s' hs' hph'
    rw [heq] at hs'
    rcases List.mem_append.mp hs' with hmem | hmem
    · exact hmem
    · simp only [List.mem_singleton, Effect.emit.injEq] at hmem
      subst hmem
      rw [hph] at hph'
      exact absurd hph' (by decide)

/-- Witness for C3: with the holder's lock-file mtime at 0, the clock at
200001 and a staleness threshold of 120000, the head waiter reaps. -/
theorem C3_stale_reclamation_witness :
    acquireStep ⟨120000, 250, 600000⟩ reapDemoInp 200000 1
        ⟨200001, fun _ => some 0, true, none, id, id⟩ ⟨0, ""⟩ ⟨reapDemoDb, []⟩ =
      (StepOut.retry, { db := deleteLockKey reapDemoDb "file:/repo/a.ts", held := [] }, ⟨0, ""⟩,
       [Effect.unlockPath "/repo/a.ts" "/locks/h.lock",
        Effect.emit { phase := Phase.stale_reaped, sessionID := "S2", kind := Kind.file,
                      key := "file:/repo/a.ts", target := "/repo/a.ts",
                      ownerSession := some "S1", waitMs := some 1 }]) :=
  C3_stale_reclamation.1 ⟨120000, 250, 600000⟩ reapDemoInp 200000 1
    ⟨200001, fun _ => some 0, true, none, id, id⟩ ⟨0, ""⟩ ⟨reapDemoDb, []⟩
    ⟨"file:/repo/a.ts", "S1", Kind.file, "/repo/a.ts", "/locks/h.lock", 0⟩ 0
    (by decide) (by decide) (by decide) (by decide) rfl (by decide)

/-- C1: the `lock` table's primary key enforces at most one LockRecord per
key — an insert for an already-present key fails with the uniqueness
violation and a successful insert preserves key uniqueness — and a waiter
that wins the advisory file lock but loses the insert race releases the
handle it just obtained and retries: its process state keeps no new held
entry and the step emits no `acquired`. -/
theorem C1_mutual_exclusion :
    (∀ (db : DbState) (row : Row) (fault : Option InsertErr),
        (∃ r ∈ db.lock, r.key = row.key) →
        insertLock db row fault = Except.error InsertErr.constraint) ∧
    (∀ (db : DbState) (row : Row) (fault : Option InsertErr) (db' : DbState),
        insertLock db row fault = Except.ok db' →
        (db.lock.map (fun r => r.key)).Nodup →
        (db'.lock.map (fun r => r.key)).Nodup) ∧
    (∀ (cfg : Cfg) (inp : AcquireInput) (started : Int) (ticket : Nat) (env : IterEnv)
        (ls : LoopSt) (st : ProcState),
        ¬ env.now - started > cfg.maxWaitMs →
        ¬ (queueState st.db inp.key ticket).position > 1 →
        readLock st.db inp.key = none →
        env.lockOk = true →
        (∃ r ∈ (env.mid st.db).lock, r.key = inp.key) →
        acquireStep cfg inp started ticket env ls st =
          (StepOut.retry, { st with db := env.mid st.db }, ls,
           [Effect.releaseHandle inp.key, Effect.sleep cfg.pollMs])) := by
  refine ⟨insertLock_present, ?_, ?_⟩
  · intro db row fault db' hok hnd
    obtain ⟨hne, rfl⟩ := insertLock_ok_shape db row fault db' hok
    simp only [List.map_append, List.map_cons, List.map_nil]
    rw [List.nodup_append]
    refine ⟨hnd, List.nodup_singleton _, ?_⟩
    intro a ha hb
    simp only [List.mem_singleton] at hb
    obtain ⟨r, hr, rfl⟩ := List.mem_map.mp ha
    exact hne r hr hb
  · intro cfg inp started ticket env ls st h1 h2 h3 h4 h5
    rw [acquireStep_head_eq cfg inp started ticket env ls st h1 h2,
      headStep_noRow_eq cfg inp env ls st _ _ h3,
      noRowStep_conflict_eq cfg inp env ls st _ _ h4 h5]

/-- Witness for C1: `S2` sees no record and wins the advisory lock, but `S1`
inserts concurrently (the `mid` interference); `S2`'s insert hits the
uniqueness violation, so it releases the just-obtained handle and retries. -/
theorem C1_mutual_exclusion_witness :
    acquireStep ⟨120000, 250, 600000⟩ reapDemoInp 0 1
        ⟨5, fun _ => none, true, none, id,
         fun db => { db with lock := [⟨"file:/repo/a.ts", "S1", Kind.file, "/repo/a.ts", "/locks/h.lock", 4⟩] }⟩
        ⟨0, ""⟩ ⟨⟨[], [⟨1, "file:/repo/a.ts", "S2", Kind.file, "/repo/a.ts", 0⟩], 2⟩, []⟩ =
      (StepOut.retry,
       { db := ⟨[⟨"file:/repo/a.ts", "S1", Kind.file, "/repo/a.ts", "/locks/h.lock", 4⟩],
                [⟨1, "file:/repo/a.ts", "S2", Kind.file, "/repo/a.ts", 0⟩], 2⟩, held := [] },
       ⟨0, ""⟩, [Effect.releaseHandle "file:/repo/a.ts", Effect.sleep 250]) :=
  C1_mutual_exclusion.2.2 ⟨120000, 250, 600000⟩ reapDemoInp 0 1
    ⟨5, fun _ => none, true, none, id,
     fun db => { db with lock := [⟨"file:/repo/a.ts", "S1", Kind.file, "/repo/a.ts", "/locks/h.lock", 4⟩] }⟩
    ⟨0, ""⟩ ⟨⟨[], [⟨1, "file:/repo/a.ts", "S2", Kind.file, "/repo/a.ts", 0⟩], 2⟩, []⟩
    (by decide) (by decide) (by decide) rfl
    ⟨⟨"file:/repo/a.ts", "S1", Kind.file, "/repo/a.ts", "/locks/h.lock", 4⟩, by decide, rfl⟩

/-- C4: an iteration whose elapsed wait exceeds the configured max-wait
emits `timeout` and fails the call; a call entered with the elapsed wait
already past the bound fails with `LockTimeout`; and whatever the outcome, the
`finally` dequeue leaves no queue entry carrying the call's ticket. -/
theorem C4_timeout :
    (∀ (cfg : Cfg) (inp : AcquireInput) (started : Int) (ticket : Nat) (env : IterEnv)
        (ls : LoopSt) (st : ProcState),
        env.now - started > cfg.maxWaitMs →
        acquireStep cfg inp started ticket env ls st =
          (StepOut.timedOut, st, ls,
           [Effect.emit { phase := Phase.timeout, sessionID := inp.sessionID,
                          kind := inp.kind, key := inp.key, target := inp.target,
                          waitMs := some (env.now - started) }])) ∧
    (∀ (cfg : Cfg) (inp : AcquireInput) (started : Int) (env : IterEnv)
        (envs : List IterEnv) (st : ProcState),
        heldLookup st.held inp.key ≠ some inp.sessionID →
        env.now - started > cfg.maxWaitMs →
        (acquire cfg inp started (env :: envs) st).1 = AcqResult.lockTimeout) ∧
    (∀ (cfg : Cfg) (inp : AcquireInput) (started : Int) (envs : List IterEnv)
        (st : ProcState),
        heldLookup st.held inp.key ≠ some inp.sessionID →
        ∀ q ∈ (acquire cfg inp started envs st).2.1.db.queue,
          q.ticket ≠ st.db.nextTicket) := by
  refine ⟨acquireStep_timeout_eq, ?_, ?_⟩
  · intro cfg inp started env envs st h1 ht
    have hstep := fun (ticket : Nat) (ls : LoopSt) (st' : ProcState) =>
      acquireStep_timeout_eq cfg inp started ticket env ls st' ht
    simp only [acquire, if_neg h1, runLoop, hstep]
  · intro cfg inp started envs st h1 q hq
    simp only [acquire, if_neg h1, insertQueue] at hq
    exact deleteTicket_ticket_ne _ _ q hq

/-- Witness for C4: a first poll already past max-wait yields `LockTimeout`. -/
theorem C4_timeout_witness :
    (acquire ⟨120000, 250, 600000⟩ reapDemoInp 0
        [⟨700000, fun _ => none, true, none, id, id⟩] ⟨⟨[], [], 1⟩, []⟩).1 =
      AcqResult.lockTimeout :=
  C4_timeout.2.1 ⟨120000, 250, 600000⟩ reapDemoInp 0 ⟨700000, fun _ => none, true, none, id, id⟩
    [] ⟨⟨[], [], 1⟩, []⟩ (by decide) (by decide)

theorem two_le_countP {α : Type} (p : α → Bool) :
    ∀ (l : List α) (x y : α), x ∈ l → y ∈ l → x ≠ y → p x = true → p y = true →
      2 ≤ l.countP p := by
  intro l
  induction l with
  | nil => intro x y hx _ _ _ _; simp at hx
  | cons c tl ih =>
    intro x y hx hy hxy hpx hpy
    rw [List.countP_cons]
    rcases List.mem_cons.mp hx with rfl | hx'
    · rcases List.mem_cons.mp hy with rfl | hy'
      · exact absurd rfl hxy
      · have h1 : 0 < tl.countP p := List.countP_pos_iff.mpr ⟨y, hy', hpy⟩
        rw [if_pos hpx]
        omega
    · rcases List.mem_cons.mp hy with rfl | hy'
      · have h1 : 0 < tl.countP p := List.countP_pos_iff.mpr ⟨x, hx', hpx⟩
        rw [if_pos hpy]
        omega
      · have h2 := ih x y hx' hy' hxy hpx hpy
        split <;> omega

/-- A run whose every scheduled iteration sees this ticket ranked behind
another waiter never ends in acquisition. -/
theorem runLoop_posGt_not_acquired (cfg : Cfg) (inp : AcquireInput) (started : Int)
    (ticket : Nat) :
    ∀ (envs : List IterEnv) (ls : LoopSt) (st : ProcState),
      (∀ env ∈ envs, ∀ db : DbState, (queueState (env.pre db) inp.key ticket).position > 1) →
      (runLoop cfg inp started ticket envs ls st).1 ≠ RunOut.acquired := by
  intro envs
  induction envs with
  | nil => intro ls st _; simp [runLoop]
  | cons env rest ih =>
    intro ls st hall
    by_cases ht : env.now - started > cfg.maxWaitMs
    · have hstep := acquireStep_timeout_eq cfg inp started ticket env ls
        { st with db := env.pre st.db } ht
      simp [runLoop, hstep]
    · have hpos := hall env (List.mem_cons_self _ _) st.db
      have hstep := acquireStep_posGt_eq cfg inp started ticket env ls
        { st with db := env.pre st.db } ht hpos
      by_cases hd : env.now - ls.lastWaitUpdate ≥ 1500
      · rw [if_pos hd] at hstep
        simp only [runLoop, hstep]
        exact ih _ _ (fun e he db => hall e (List.mem_cons_of_mem _ he) db)
      · rw [if_neg hd] at hstep
        simp only [runLoop, hstep]
        exact ih _ _ (fun e he db => hall e (List.mem_cons_of_mem _ he) db)

/-- C2: tickets are handed out by the queue's autoincrement counter (a later
enqueue on a grown counter gets a strictly larger ticket); among entries
sharing a key an earlier ticket forces every later ticket's computed rank
above 1; a waiter ranked above 1 only retries against the unchanged state,
emitting at most a debounced `waiting` plus one poll-interval sleep; and a
run all of whose iterations are ranked above 1 neither ends in acquisition
nor ever emits `acquired`. -/
theorem C2_fifo_fairness :
    (∀ (db : DbState) (key session : String) (kind : Kind) (target : String)
        (created : Int),
        (insertQueue db key session kind target created).1 = db.nextTicket ∧
        (insertQueue db key session kind target created).2.nextTicket = db.nextTicket + 1 ∧
        ∃ q, (insertQueue db key session kind target created).2.queue = db.queue ++ [q] ∧
          q.ticket = db.nextTicket ∧ q.key = key ∧ q.session = session) ∧
    (∀ (db : DbState) (a b : QueueRow),
        a ∈ db.queue → b ∈ db.queue → a.key = b.key → a.ticket < b.ticket →
        (queueState db b.key b.ticket).position > 1) ∧
    (∀ (cfg : Cfg) (inp : AcquireInput) (started : Int) (ticket : Nat) (env : IterEnv)
        (ls : LoopSt) (st : ProcState),
        ¬ env.now - started > cfg.maxWaitMs →
        (queueState st.db inp.key ticket).position > 1 →
        ∃ ls' effs,
          acquireStep cfg inp started ticket env ls st = (StepOut.retry, st, ls', effs) ∧
          (effs = [Effect.sleep cfg.pollMs] ∨
           ∃ s, s.phase = Phase.waiting ∧ effs = [Effect.emit s, Effect.sleep cfg.pollMs])) ∧
    (∀ (cfg : Cfg) (inp : AcquireInput) (started : Int) (ticket : Nat)
        (envs : List IterEnv) (ls : LoopSt) (st : ProcState),
        (∀ env ∈ envs, ∀ db : DbState, (queueState (env.pre db) inp.key ticket).position > 1) →
        (runLoop cfg inp started ticket envs ls st).1 ≠ RunOut.acquired ∧
        ∀ s, Effect.emit s ∈ (runLoop cfg inp started ticket envs ls st).2.2 →
          s.phase ≠ Phase.acquired) := by
  refine ⟨?_, ?_, ?_, ?_⟩
  · intro db key session kind target created
    exact ⟨rfl, rfl, ⟨_, rfl, rfl, rfl, rfl⟩⟩
  · intro db a b ha hb hkey hlt
    have hpa : (fun q => q.key == b.key && decide (q.ticket ≤ b.ticket)) a = true := by
      simp [hkey, Nat.le_of_lt hlt]
    have hpb : (fun q => q.key == b.key && decide (q.ticket ≤ b.ticket)) b = true := by
      simp
    have hne : a ≠ b := by
      intro h
      rw [h] at hlt
      exact Nat.lt_irrefl _ hlt
    have h2 := two_le_countP (fun q => q.key == b.key && decide (q.ticket ≤ b.ticket))
      db.queue a b ha hb hne hpa hpb
    simpa [queueState] using h2
  · intro cfg inp started ticket env ls st ht hpos
    rw [acquireStep_posGt_eq cfg inp started ticket env ls st ht hpos]
    by_cases hd : env.now - ls.lastWaitUpdate ≥ 1500
    · rw [if_pos hd]
      exact ⟨_, _, rfl, Or.inr ⟨_, rfl, rfl⟩⟩
    · rw [if_neg hd]
      exact ⟨_, _, rfl, Or.inl rfl⟩
  · intro cfg inp started ticket envs ls st hall
    have hne := runLoop_posGt_not_acquired cfg inp started ticket envs ls st hall
    exact ⟨hne, runLoop_no_acquire_emit cfg inp started ticket envs ls st hne⟩

/-- Witness for C2 at a concrete queue: with waiter `S1` holding ticket 1
and waiter `S2` holding ticket 2 on the same key, `S2`'s computed rank
exceeds 1. -/
theorem C2_fifo_fairness_witness :
    (queueState ⟨[], [⟨1, "file:/k", "S1", Kind.file, "/k", 0⟩,
                      ⟨2, "file:/k", "S2", Kind.file, "/k", 0⟩], 3⟩ "file:/k" 2).position > 1 :=
  C2_fifo_fairness.2.1 ⟨[], [⟨1, "file:/k", "S1", Kind.file, "/k", 0⟩,
                             ⟨2, "file:/k", "S2", Kind.file, "/k", 0⟩], 3⟩
    ⟨1, "file:/k", "S1", Kind.file, "/k", 0⟩ ⟨2, "file:/k", "S2", Kind.file, "/k", 0⟩
    (by decide) (by decide) rfl (by decide)

theorem releaseRowEffect_snd (held : List (String × String)) (sessionID : String)
    (row : Row) :
    (releaseRowEffect held sessionID row).2 =
      if heldLookup held row.key = some sessionID then Effect.releaseHandle row.key
      else Effect.unlockPath row.target row.lockfile := by
  unfold releaseRowEffect
  rcases h : heldLookup held row.key with _ | s
  · simp [h]
  · by_cases hs : s = sessionID
    · subst hs; simp [h]
    · simp [h, hs]

theorem releaseRowEffect_fst (held : List (String × String)) (sessionID : String)
    (row : Row) :
    (releaseRowEffect held sessionID row).1 =
      if heldLookup held row.key = some sessionID then heldErase held row.key
      else held := by
  unfold releaseRowEffect
  rcases h : heldLookup held row.key with _ | s
  · simp [h]
  · by_cases hs : s = sessionID
    · subst hs; simp [h]
    · simp [h, hs]

theorem heldLookup_heldErase_ne (k k0 : String) (h : k ≠ k0) :
    ∀ held : List (String × String),
      heldLookup (heldErase held k0) k = heldLookup held k := by
  intro held
  induction held with
  | nil => rfl
  | cons kv tl ih =>
    by_cases h1 : kv.1 = k0
    · have hfil : heldErase (kv :: tl) k0 = heldErase tl k0 := by
        simp [heldErase, List.filter_cons, h1]
      have hfind : heldLookup (kv :: tl) k = heldLookup tl k := by
        unfold heldLookup
        rw [List.find?_cons_of_neg]
        simp only [h1, beq_iff_eq]
        exact Ne.symm h
      rw [hfil, ih, hfind]
    · have hfil : heldErase (kv :: tl) k0 = kv :: heldErase tl k0 := by
        simp [heldErase, List.filter_cons, h1]
      rw [hfil]
      by_cases h2 : kv.1 = k
      · unfold heldLookup
        rw [List.find?_cons_of_pos _ (by simp [h2]), List.find?_cons_of_pos _ (by simp [h2])]
      · unfold heldLookup
        rw [List.find?_cons_of_neg _ (by simp [h2]), List.find?_cons_of_neg _ (by simp [h2])]
        exact ih

theorem releaseFold_acc (sessionID : String) :
    ∀ (rows : List Row) (held : List (String × String)) (acc : List Effect),
      (releaseFold sessionID rows (held, acc)).2 =
        acc ++ (releaseFold sessionID rows (held, [])).2 := by
  intro rows
  induction rows with
  | nil => intro held acc; simp [releaseFold]
  | cons r0 tl ih =>
    intro held acc
    simp only [releaseFold, List.nil_append]
    rw [ih _ (acc ++ [(releaseRowEffect held sessionID r0).2]),
      ih _ [(releaseRowEffect held sessionID r0).2], List.append_assoc]

theorem releaseFold_mem (sessionID : String) :
    ∀ (rows : List Row) (held : List (String × String)) (acc : List Effect),
      (rows.map (fun r => r.key)).Nodup →
      ∀ r ∈ rows,
        (if heldLookup held r.key = some sessionID then Effect.releaseHandle r.key
         else Effect.unlockPath r.target r.lockfile) ∈
          (releaseFold sessionID rows (held, acc)).2 := by
  intro rows
  induction rows with
  | nil => intro held acc _ r hr; simp at hr
  | cons r0 tl ih =>
    intro held acc hnd r hr
    simp only [releaseFold]
    rcases List.mem_cons.mp hr with rfl | hr'
    · rw [releaseFold_acc, ← releaseRowEffect_snd held sessionID r]
      simp
    · have hkne : r.key ≠ r0.key := by
        intro he
        have hmem : r.key ∈ tl.map (fun r => r.key) := List.mem_map_of_mem _ hr'
        rw [he] at hmem
        exact (List.nodup_cons.mp (by simpa using hnd)).1 hmem
      have hnd' : (tl.map (fun r => r.key)).Nodup :=
        (List.nodup_cons.mp (by simpa using hnd)).2
      have hheld : heldLookup (releaseRowEffect held sessionID r0).1 r.key =
          heldLookup held r.key := by
        rw [releaseRowEffect_fst]
        by_cases hc : heldLookup held r0.key = some sessionID
        · rw [if_pos hc]
          exact heldLookup_heldErase_ne r.key r0.key hkne held
        · rw [if_neg hc]
      have hmem := ih (releaseRowEffect held sessionID r0).1
        (acc ++ [(releaseRowEffect held sessionID r0).2]) hnd' r hr'
      rw [hheld] at hmem
      exact hmem

theorem releaseFold_effects (sessionID : String) :
    ∀ (rows : List Row) (held : List (String × String)) (acc : List Effect),
      (∀ e ∈ acc, (∃ k, e = Effect.releaseHandle k) ∨ ∃ t l, e = Effect.unlockPath t l) →
      ∀ e ∈ (releaseFold sessionID rows (held, acc)).2,
        (∃ k, e = Effect.releaseHandle k) ∨ ∃ t l, e = Effect.unlockPath t l := by
  intro rows
  induction rows with
  | nil => intro held acc hacc e he; exact hacc e he
  | cons r0 tl ih =>
    intro held acc hacc e he
    simp only [releaseFold] at he
    refine ih _ _ ?_ e he
    intro e' he'
    rcases List.mem_append.mp he' with hm | hm
    · exact hacc e' hm
    · simp only [List.mem_singleton] at hm
      subst hm
      rw [releaseRowEffect_snd]
      by_cases hc : heldLookup held r0.key = some sessionID
      · rw [if_pos hc]; exact Or.inl ⟨_, rfl⟩
      · rw [if_neg hc]; exact Or.inr ⟨_, _, rfl⟩

theorem releaseSession_db (st : ProcState) (sessionID : String) :
    (releaseSession st sessionID).1.db =
      deleteQueueBySession (deleteLockBySession st.db sessionID) sessionID := by
  rcases hrows : st.db.lock.filter (fun r => r.session == sessionID) with _ | ⟨first, rest⟩
  · simp only [releaseSession, hrows]
  · simp only [releaseSession, hrows]

theorem releaseSession_effects_nil (st : ProcState) (sessionID : String)
    (hrows : st.db.lock.filter (fun r => r.session == sessionID) = []) :
    (releaseSession st sessionID).2 = [] := by
  simp only [releaseSession, hrows]
  rfl

theorem releaseSession_effects_cons (st : ProcState) (sessionID : String)
    (first : Row) (rest : List Row)
    (hrows : st.db.lock.filter (fun r => r.session == sessionID) = first :: rest) :
    (releaseSession st sessionID).2 =
      (releaseFold sessionID (first :: rest) (st.held, [])).2 ++
        [Effect.emit { phase := Phase.released, sessionID := sessionID, kind := first.kind,
                       key := first.key, target := first.target,
                       releasedCount := some (first :: rest).length }] := by
  simp only [releaseSession, hrows]

/-- C5: one `releaseSession` call deletes every LockRecord and every
QueueEntry owned by the session across all keys (and only those); for each
owned lock row it releases the process-local handle when this process holds
the key for the session and otherwise best-effort unlocks the recorded
lock-file path; and it emits exactly one `released` status carrying the
count of locks released — none at all when the session owned no lock. -/
theorem C5_release_completeness :
    ∀ (st : ProcState) (sessionID : String),
      (∀ r ∈ (releaseSession st sessionID).1.db.lock, r.session ≠ sessionID) ∧
      (∀ q ∈ (releaseSession st sessionID).1.db.queue, q.session ≠ sessionID) ∧
      (∀ r ∈ st.db.lock, r.session ≠ sessionID → r ∈ (releaseSession st sessionID).1.db.lock) ∧
      (∀ q ∈ st.db.queue, q.session ≠ sessionID → q ∈ (releaseSession st sessionID).1.db.queue) ∧
      ((st.db.lock.map (fun r => r.key)).Nodup →
        ∀ r ∈ st.db.lock, r.session = sessionID →
          (if heldLookup st.held r.key = some sessionID then Effect.releaseHandle r.key
           else Effect.unlockPath r.target r.lockfile) ∈ (releaseSession st sessionID).2) ∧
      (st.db.lock.filter (fun r => r.session == sessionID) = [] →
        (releaseSession st sessionID).2 = []) ∧
      (∀ (first : Row) (rest : List Row),
        st.db.lock.filter (fun r => r.session == sessionID) = first :: rest →
        ∃ es s, (releaseSession st sessionID).2 = es ++ [Effect.emit s] ∧
          s.phase = Phase.released ∧
          s.releasedCount = some (first :: rest).length ∧
          ∀ e ∈ es, (∃ k, e = Effect.releaseHandle k) ∨ ∃ t l, e = Effect.unlockPath t l) := by
  intro st sessionID
  refine ⟨?_, ?_, ?_, ?_, ?_, releaseSession_effects_nil st sessionID, ?_⟩
  · intro r hr
    rw [releaseSession_db] at hr
    have := (List.mem_filter.mp hr).2
    simpa using this
  · intro q hq
    rw [releaseSession_db] at hq
    have := (List.mem_filter.mp hq).2
    simpa using this
  · intro r hr hne
    rw [releaseSession_db]
    exact List.mem_filter.mpr ⟨hr, by simpa using hne⟩
  · intro q hq hne
    rw [releaseSession_db]
    exact List.mem_filter.mpr ⟨hq, by simpa using hne⟩
  · intro hnd r hr hsess
    have hrrows : r ∈ st.db.lock.filter (fun r => r.session == sessionID) :=
      List.mem_filter.mpr ⟨hr, by simp [hsess]⟩
    have hndrows : ((st.db.lock.filter (fun r => r.session == sessionID)).map
        (fun r => r.key)).Nodup :=
      hnd.sublist (List.Sublist.map _ (List.filter_sublist _))
    rcases hrows : st.db.lock.filter (fun r => r.session == sessionID) with _ | ⟨first, rest⟩
    · rw [hrows] at hrrows
      simp at hrrows
    · rw [releaseSession_effects_cons st sessionID first rest hrows]
      rw [hrows] at hrrows hndrows
      exact List.mem_append_left _
        (releaseFold_mem sessionID (first :: rest) st.held [] hndrows r hrrows)
  · intro first rest hrows
    rw [releaseSession_effects_cons st sessionID first rest hrows]
    refine ⟨_, _, rfl, rfl, rfl, ?_⟩
    exact releaseFold_effects sessionID (first :: rest) st.held [] (by simp)

/-- Witness for C5 at a concrete state: this process holds `file:/k` for
`S1`, so releasing `S1` calls the cached release handle for that key. -/
theorem C5_release_completeness_witness :
    (if heldLookup [("file:/k", "S1")] "file:/k" = some "S1" then Effect.releaseHandle "file:/k"
     else Effect.unlockPath "/k" "/locks/k.lock") ∈
      (releaseSession ⟨⟨[⟨"file:/k", "S1", Kind.file, "/k", "/locks/k.lock", 0⟩], [], 1⟩,
        [("file:/k", "S1")]⟩ "S1").2 :=
  (C5_release_completeness ⟨⟨[⟨"file:/k", "S1", Kind.file, "/k", "/locks/k.lock", 0⟩], [], 1⟩,
      [("file:/k", "S1")]⟩ "S1").2.2.2.2.1 (by decide)
    ⟨"file:/k", "S1", Kind.file, "/k", "/locks/k.lock", 0⟩ (by decide) rfl

end SessionLockSpec
